import Mathlib

/-!
Verification of `pytype/overlay_utils.py`: the synthetic callable-signature
builder (`Param`, `make_method`).  Python values relevant to this module are
shallowly embedded as `PyVal`; Python dicts as insertion-ordered association
lists; the surrounding engine's operations (program-point binding, decorator
application, the unknown-value factory, `Signature.check_defaults`) are
modelled from the spec where their code is not part of the sources.
-/

set_option autoImplicit false

namespace OverlayUtils

/-- Embedding of the Python values this module can observe.
`variable_v` embeds `cfg.Variable`: the module only ever reads
`param.typ.data` and each candidate's `cls` attribute, so a candidate is
represented by that attribute (`none` when the candidate has no class, a
class identifier otherwise).  `class_v` embeds `class_mixin.Class`,
`typeParam_v` embeds `abstract.TypeParameter`, `union_v` embeds
`abstract.Union` (holding the option values it was constructed from),
`unsolvable_v` embeds `abstract.Unsolvable` (the engine's shared unknown
type, `vm.convert.unsolvable`).  `unknown_at` is modelled from the spec:
the point-specific unknown-value binding produced by `vm.new_unsolvable(node)`;
the module only stores it, never inspects it.  `none_v`, `int_v`, `str_v`
and `other_v` embed Python `None`, ints, strings and arbitrary further
objects, enough to express truthiness distinctions. -/
inductive PyVal where
  | none_v
  | int_v (n : Int)
  | str_v (s : String)
  | variable_v (data : List (Option Nat))
  | class_v (id : Nat)
  | typeParam_v (id : Nat)
  | union_v (options : List PyVal)
  | unsolvable_v
  | unknown_at (node : Nat)
  | other_v (id : Nat)

/-- Python truthiness (`if typ:` / `x or y`): `None`, `0` and `""` are falsy;
all other embedded values are objects without `__bool__`/`__len__`, hence
truthy. -/
def truthy : PyVal → Bool
  | .none_v => false
  | .int_v n => n != 0
  | .str_v s => s != ""
  | _ => true

/-- `isinstance(typ, PARAM_TYPES)` for
`PARAM_TYPES = (cfg.Variable, class_mixin.Class, abstract.TypeParameter,
abstract.Union, abstract.Unsolvable)`.  `unknown_at` is a `cfg.Variable`
in the source engine, hence recognized. -/
def isParamType : PyVal → Bool
  | .variable_v _ => true
  | .class_v _ => true
  | .typeParam_v _ => true
  | .union_v _ => true
  | .unsolvable_v => true
  | .unknown_at _ => true
  | _ => false

/-- A candidate's `cls` attribute as a value: `None` or the class object. -/
def clsVal : Option Nat → PyVal
  | none => .none_v
  | some c => .class_v c

/-- `Param`: internal representation of method parameters.  Absent `typ` /
`default` are `none_v` (Python `None`). -/
structure Param where
  name : String
  typ : PyVal
  default : PyVal

/-- `Param.__init__`: `if typ: assert isinstance(typ, PARAM_TYPES)`.
A failed assertion raises (no descriptor is produced), embedded as
`Except.error` carrying the offending value. -/
def Param.make (name : String) (typ default : PyVal) : Except PyVal Param :=
  if truthy typ && !isParamType typ then .error typ
  else .ok ⟨name, typ, default⟩

/-- `Param.unsolvable(self, vm, node)`:
`self.typ = self.typ or vm.convert.unsolvable;
 self.default = self.default or vm.new_unsolvable(node); return self`.
The Python method mutates `self` and returns it; the pure embedding returns
the updated descriptor. -/
def Param.unsolvable (p : Param) (node : Nat) : Param :=
  ⟨p.name,
   (if truthy p.typ then p.typ else .unsolvable_v),
   (if truthy p.default then p.default else .unknown_at node)⟩

/-- Python dicts keyed by strings, as insertion-ordered association lists. -/
abbrev Dict := List (String × PyVal)

/-- Key membership (`k in d`). -/
def dictHas : Dict → String → Bool
  | [], _ => false
  | kv :: d, k => kv.1 == k || dictHas d k

/-- Lookup (`d[k]` as an option). -/
def dictGet : Dict → String → Option PyVal
  | [], _ => none
  | kv :: d, k => if kv.1 == k then some kv.2 else dictGet d k

/-- `d[k] = v`: replace the first entry with key `k` in place, else append. -/
def dictSet : Dict → String → PyVal → Dict
  | [], k, v => [(k, v)]
  | kv :: d, k, v => if kv.1 == k then (k, v) :: d else kv :: dictSet d k v

/-- `_process_annotation(param)`: resolve one parameter's type constraint
into the shared `annotations` dict (here threaded as a fold state).
Mirrors:
`if not param.typ: return
 elif isinstance(param.typ, cfg.Variable):
   if all(t.cls for t in param.typ.data):
     types = param.typ.data
     if len(types) == 1: annotations[param.name] = types[0].cls
     else: annotations[param.name] = abstract.Union([t.cls for t in types], vm)
 else: annotations[param.name] = param.typ`. -/
def process_annot (anns : Dict) (param : Param) : Dict :=
  if truthy param.typ = false then anns
  else
    match param.typ with
    | .variable_v data =>
        if data.all Option.isSome then
          match data with
          | [t] => dictSet anns param.name (clsVal t)
          | _ => dictSet anns param.name (.union_v (data.map clsVal))
        else anns
    | _ => dictSet anns param.name param.typ

/-- Method kinds (`pytd.MethodTypes`). -/
inductive MethodKind where
  | method
  | classmethod
  | staticmethod
  | property

/-- Receiver injection of `make_method`:
`if kind in (METHOD, PROPERTY): self_param = [self_param or Param("self")]
 elif kind == CLASSMETHOD: self_param = [Param("cls")]
 else: self_param = []`. -/
def recvParams (kind : MethodKind) (self_param : Option Param) : List Param :=
  match kind with
  | .method => [self_param.getD ⟨"self", .none_v, .none_v⟩]
  | .property => [self_param.getD ⟨"self", .none_v, .none_v⟩]
  | .classmethod => [⟨"cls", .none_v, .none_v⟩]
  | .staticmethod => []

/-- One step of the defaults dict comprehension
`{x.name: x.default for x in params + kwonly_params if x.default}`. -/
def addDefault (d : Dict) (x : Param) : Dict :=
  if truthy x.default then dictSet d x.name x.default else d

/-- Modelled from the spec: the callable-value constructor
(`abstract.SimpleFunction`, not among the sources) "accepting the assembled
fields (name, ordered param names, varargs/kwargs names, keyword-only names,
defaults, annotations) and returning a descriptor that can be bound at a
point"; it stores the assembled fields verbatim.  `annots` holds the
resolved-annotations dict. -/
structure SimpleFunction where
  name : String
  param_names : List String
  varargs_name : Option String
  kwonly_params : List String
  kwargs_name : Option String
  defaults : Dict
  annots : Dict

/-- Scanner of `check_defaults`: walk the positional names left to right,
remembering whether a defaulted parameter was seen; report the first
defaultless name that follows one. -/
def cdGo (dflt : Dict) : Bool → List String → Option String
  | _, [] => none
  | seen, n :: rest =>
      if dictHas dflt n then cdGo dflt true rest
      else if seen then some n else cdGo dflt seen rest

/-- Modelled from the spec: `Signature.check_defaults` (the signature class
is not among the sources).  The spec: validation scans the positional
parameter list left to right and "must report exactly the name at index i
(first offender, leftmost scan)" where a parameter without a default follows
one with a default. -/
def check_defaults (param_names : List String) (dflt : Dict) : Option String :=
  cdGo dflt false param_names

/-- A value bound in the analysis graph.  `raw fn node` embeds
`fn.to_variable(node)`.  `decorated dec h node` is modelled from the spec:
"apply decorator D to handle H at point P → handle", i.e. the result of
`vm.load_special_builtin(dec).call(node, funcv=None,
args=function.Args(posargs=(h,)))[1]`, kept symbolic. -/
inductive Handle where
  | raw (fn : SimpleFunction) (node : Nat)
  | decorated (dec : String) (h : Handle) (node : Nat)

/-- Outcome of `make_method`: the constructed descriptor, the returned
(bound, possibly decorator-wrapped) value, and the messages reported to
`vm.errorlog.invalid_function_definition`. -/
structure MakeResult where
  fn : SimpleFunction
  retHandle : Handle
  diags : List String

/-- `make_method(vm, node, name, params, kwonly_params, return_type,
self_param, varargs, kwargs, kind)`.  Lists stand for the Python
`params or []` normalization; `self_param`, `varargs`, `kwargs` are
`None`-or-`Param`. -/
def make_method (node : Nat) (name : String) (params0 : List Param)
    (kwonly0 : List Param) (return_type : PyVal) (self_param : Option Param)
    (varargs : Option Param) (kwargs : Option Param) (kind : MethodKind) :
    MakeResult :=
  let params := recvParams kind self_param ++ params0
  let return_param : Option Param :=
    if truthy return_type then some ⟨"return", return_type, .none_v⟩ else none
  let special_params := [return_param, varargs, kwargs].filterMap id
  let annots := (special_params ++ params ++ kwonly0).foldl process_annot []
  let param_names := params.map Param.name
  let kwonly_names := kwonly0.map Param.name
  let defaults := (params ++ kwonly0).foldl addDefault []
  let varargs_name := varargs.map Param.name
  let kwargs_name := kwargs.map Param.name
  let ret : SimpleFunction :=
    ⟨name, param_names, varargs_name, kwonly_names, kwargs_name, defaults,
     annots⟩
  let bad_param := check_defaults ret.param_names ret.defaults
  let diags : List String :=
    match bad_param with
    | some bp =>
        ["In method " ++ name ++ ", non-default argument " ++ bp ++
         " follows default argument"]
    | none => []
  let retvar := Handle.raw ret node
  let result :=
    match kind with
    | .method => retvar
    | .property => retvar
    | .classmethod => Handle.decorated "classmethod" retvar node
    | .staticmethod => Handle.decorated "staticmethod" retvar node
  ⟨ret, result, diags⟩

/-! ### Dictionary lemmas -/

theorem dictHas_dictSet (d : Dict) (k n : String) (v : PyVal) :
    dictHas (dictSet d k v) n = (dictHas d n || (k == n)) := by
  induction d with
  | nil => simp [dictSet, dictHas]
  | cons kv d ih =>
      by_cases h : kv.1 = k
      · simp only [dictSet, dictHas, h, beq_self_eq_true, if_true]
        cases hkn : (k == n) <;> simp [hkn]
      · have hb : (kv.1 == k) = false := by simp [h]
        simp only [dictSet, hb, Bool.false_eq_true, if_false, dictHas, ih,
          Bool.or_assoc]

theorem process_annot_of_not_truthy (anns : Dict) (p : Param)
    (h : truthy p.typ = false) : process_annot anns p = anns := by
  simp [process_annot, h]

theorem process_annot_shape (anns : Dict) (p : Param) :
    process_annot anns p = anns ∨
      ∃ v, process_annot anns p = dictSet anns p.name v := by
  by_cases h : truthy p.typ = false
  · exact Or.inl (process_annot_of_not_truthy anns p h)
  · unfold process_annot
    rw [if_neg h]
    cases p.typ with
    | variable_v data =>
        dsimp only
        by_cases hall : data.all Option.isSome
        · rw [if_pos hall]
          cases data with
          | nil => exact Or.inr ⟨_, rfl⟩
          | cons t rest => cases rest <;> exact Or.inr ⟨_, rfl⟩
        · rw [if_neg hall]; exact Or.inl rfl
    | none_v => exact Or.inr ⟨_, rfl⟩
    | int_v n => exact Or.inr ⟨_, rfl⟩
    | str_v s => exact Or.inr ⟨_, rfl⟩
    | class_v c => exact Or.inr ⟨_, rfl⟩
    | typeParam_v c => exact Or.inr ⟨_, rfl⟩
    | union_v os => exact Or.inr ⟨_, rfl⟩
    | unsolvable_v => exact Or.inr ⟨_, rfl⟩
    | unknown_at m => exact Or.inr ⟨_, rfl⟩
    | other_v m => exact Or.inr ⟨_, rfl⟩

theorem dictHas_process_annot (anns : Dict) (p : Param) (n : String)
    (h : p.name ≠ n) :
    dictHas (process_annot anns p) n = dictHas anns n := by
  rcases process_annot_shape anns p with heq | ⟨v, heq⟩
  · rw [heq]
  · rw [heq, dictHas_dictSet]; simp [h]

theorem foldl_process_annot_not_has (l : List Param) (n : String)
    (hl : ∀ p ∈ l, p.name ≠ n ∨ truthy p.typ = false) :
    ∀ anns : Dict, dictHas anns n = false →
      dictHas (l.foldl process_annot anns) n = false := by
  induction l with
  | nil => intro anns h; simpa using h
  | cons p l ih =>
      intro anns h
      have step : dictHas (process_annot anns p) n = false := by
        rcases hl p (List.mem_cons_self p l) with hne | hf
        · rw [dictHas_process_annot _ _ _ hne]; exact h
        · rw [process_annot_of_not_truthy _ _ hf]; exact h
      exact ih (fun q hq => hl q (List.mem_cons_of_mem _ hq)) _ step

theorem foldl_addDefault_any (l : List Param) :
    ∀ (d : Dict) (n : String),
      dictHas (l.foldl addDefault d) n =
        (dictHas d n || l.any (fun p => p.name == n && truthy p.default)) := by
  induction l with
  | nil => simp
  | cons x l ih =>
      intro d n
      simp only [List.foldl_cons, List.any_cons, ih]
      by_cases h : truthy x.default = true
      · rw [addDefault, if_pos h, dictHas_dictSet]
        simp [h, Bool.or_assoc]
      · rw [addDefault, if_neg h]
        simp only [Bool.not_eq_true] at h
        simp [h]

/-! ### Scanner lemmas -/

theorem cdGo_append_false (dflt : Dict) (A rest : List String)
    (hA : ∀ a ∈ A, dictHas dflt a = false) :
    cdGo dflt false (A ++ rest) = cdGo dflt false rest := by
  induction A with
  | nil => rfl
  | cons a A ih =>
      have ha := hA a (List.mem_cons_self a A)
      simp only [List.cons_append, cdGo, ha, Bool.false_eq_true, if_false]
      exact ih fun x hx => hA x (List.mem_cons_of_mem _ hx)

theorem cdGo_append_true (dflt : Dict) (B rest : List String)
    (hB : ∀ b ∈ B, dictHas dflt b = true) :
    cdGo dflt true (B ++ rest) = cdGo dflt true rest := by
  induction B with
  | nil => rfl
  | cons b B ih =>
      have hb := hB b (List.mem_cons_self b B)
      simp only [List.cons_append, cdGo, hb, if_true]
      exact ih fun x hx => hB x (List.mem_cons_of_mem _ hx)

theorem cdGo_seenTrue_isSome (dflt : Dict) (l₂ : List String) (ni : String)
    (l₃ : List String) (hni : dictHas dflt ni = false) :
    (cdGo dflt true (l₂ ++ ni :: l₃)).isSome = true := by
  induction l₂ with
  | nil => simp [cdGo, hni]
  | cons n l₂ ih => by_cases h : dictHas dflt n = true <;> simp [cdGo, h, ih]

theorem cdGo_isSome (dflt : Dict) (l₁ : List String) (nj : String)
    (l₂ : List String) (ni : String) (l₃ : List String)
    (hj : dictHas dflt nj = true) (hi : dictHas dflt ni = false) :
    ∀ seen, (cdGo dflt seen (l₁ ++ nj :: l₂ ++ ni :: l₃)).isSome = true := by
  induction l₁ with
  | nil =>
      intro seen
      simp only [List.nil_append, cdGo, hj, if_true]
      exact cdGo_seenTrue_isSome dflt l₂ ni l₃ hi
  | cons n l₁ ih =>
      intro seen
      by_cases h : dictHas dflt n = true
      · simp only [List.cons_append, cdGo, h, if_true]
        exact ih true
      · cases seen
        · simp only [List.cons_append, cdGo, h, Bool.false_eq_true, if_false]
          exact ih false
        · simp [List.cons_append, cdGo, h]

/-! ### Claim C1 -/

/-- Claim C1 is false as stated: for a multi-valued binding with two
candidates that carry the same single distinct class, annotation resolution
yields a (two-element) union built from the candidates' classes, not that
class value directly; and with more than one distinct class the union keeps
duplicate classes rather than ranging over exactly the distinct ones. -/
theorem c1_counterexample :
    process_annot [] ⟨"x", .variable_v [some 0, some 0], .none_v⟩ =
      [("x", .union_v [.class_v 0, .class_v 0])] ∧
    process_annot [] ⟨"x", .variable_v [some 0, some 0], .none_v⟩ ≠
      [("x", .class_v 0)] ∧
    process_annot [] ⟨"y", .variable_v [some 0, some 0, some 1], .none_v⟩ =
      [("y", .union_v [.class_v 0, .class_v 0, .class_v 1])] ∧
    process_annot [] ⟨"y", .variable_v [some 0, some 0, some 1], .none_v⟩ ≠
      [("y", .union_v [.class_v 0, .class_v 1])] := by
  refine ⟨rfl, ?_, rfl, ?_⟩ <;> simp [process_annot, dictSet, clsVal, truthy]

/-- Claim C1 (amended): for a parameter whose constraint is a multi-valued
binding in which every candidate carries a concrete class, resolution yields
the class directly only when the binding has exactly one candidate; with more
than one candidate it yields a union built from all the candidates' classes
in order (duplicates included), regardless of how many distinct classes they
comprise. -/
theorem c1_amended (anns : Dict) (nm : String) (dflt : PyVal)
    (data : List (Option Nat)) :
    (∀ c, data = [some c] →
      process_annot anns ⟨nm, .variable_v data, dflt⟩ =
        dictSet anns nm (.class_v c)) ∧
    (data.all Option.isSome = true → 1 < data.length →
      process_annot anns ⟨nm, .variable_v data, dflt⟩ =
        dictSet anns nm (.union_v (data.map clsVal))) := by
  constructor
  · rintro c rfl; rfl
  · intro hall hlen
    cases data with
    | nil => simp at hlen
    | cons a rest =>
        cases rest with
        | nil => simp at hlen
        | cons b rest2 => simp [process_annot, truthy, hall]

/-- Witness for `c1_amended` at concrete inputs. -/
theorem c1_amended_witness :
    process_annot [] ⟨"x", .variable_v [some 5], .none_v⟩ =
      dictSet [] "x" (.class_v 5) ∧
    process_annot [] ⟨"x", .variable_v [some 1, some 2], .none_v⟩ =
      dictSet [] "x" (.union_v [.class_v 1, .class_v 2]) :=
  ⟨(c1_amended [] "x" .none_v [some 5]).1 5 rfl,
   (c1_amended [] "x" .none_v [some 1, some 2]).2 rfl (by decide)⟩

/-! ### Claim C5 -/

/-- Claim C5 is false as stated: `0` is a `type_constraint` outside the
recognized kind set (and not `None`), yet the constructor accepts it and
produces a descriptor, because the membership assertion is guarded by
`if typ:` and is skipped for falsy values. -/
theorem c5_counterexample :
    Param.make "x" (.int_v 0) .none_v = .ok ⟨"x", .int_v 0, .none_v⟩ ∧
    isParamType (.int_v 0) = false ∧
    (PyVal.int_v 0) ≠ .none_v :=
  ⟨rfl, rfl, fun h => PyVal.noConfusion h⟩

/-- Claim C5 (amended): constructing a parameter descriptor with a truthy
`type_constraint` outside the recognized kind set fails immediately (the
assertion raises; no descriptor is produced); a falsy constraint is accepted
without the membership check being evaluated, and a recognized constraint is
accepted. -/
theorem c5_amended (nm : String) (t d : PyVal) :
    (truthy t = true → isParamType t = false → Param.make nm t d = .error t) ∧
    (truthy t = false → Param.make nm t d = .ok ⟨nm, t, d⟩) ∧
    (isParamType t = true → Param.make nm t d = .ok ⟨nm, t, d⟩) := by
  refine ⟨fun h1 h2 => ?_, fun h => ?_, fun h => ?_⟩ <;> simp [Param.make, *]

/-- Witness for `c5_amended` at concrete inputs. -/
theorem c5_amended_witness :
    Param.make "a" (.other_v 0) .none_v = .error (.other_v 0) ∧
    Param.make "a" (.int_v 0) .none_v = .ok ⟨"a", .int_v 0, .none_v⟩ ∧
    Param.make "a" (.class_v 1) .none_v = .ok ⟨"a", .class_v 1, .none_v⟩ :=
  ⟨(c5_amended "a" (.other_v 0) .none_v).1 rfl rfl,
   (c5_amended "a" (.int_v 0) .none_v).2.1 rfl,
   (c5_amended "a" (.class_v 1) .none_v).2.2 rfl⟩

/-! ### Claim C6 -/

/-- Claim C6: a parameter whose constraint is a multi-valued binding with at
least one candidate lacking a concrete class contributes no entry to the
annotations mapping (the mapping is returned unchanged), and a `make_method`
call with such a parameter reports no diagnostic (the embedding of annotation
resolution has no error channel, and the only diagnostic source is default
ordering, which such a call does not trigger). -/
theorem c6_thm (anns : Dict) (nm : String) (dflt : PyVal)
    (data : List (Option Nat)) (h : data.all Option.isSome = false) :
    process_annot anns ⟨nm, .variable_v data, dflt⟩ = anns ∧
    (make_method 0 "f" [⟨nm, .variable_v data, dflt⟩] [] .none_v none none
      none .staticmethod).fn.annots = [] ∧
    (make_method 0 "f" [⟨nm, .variable_v data, dflt⟩] [] .none_v none none
      none .staticmethod).diags = [] := by
  have h1 : ∀ a : Dict, process_annot a ⟨nm, .variable_v data, dflt⟩ = a := by
    intro a; simp [process_annot, truthy, h]
  refine ⟨h1 anns, ?_, ?_⟩
  · simp [make_method, recvParams, truthy, h1]
  · by_cases hd : truthy dflt = true <;>
      simp [make_method, recvParams, check_defaults, cdGo, addDefault,
        dictHas, dictSet, hd]

/-- Witness for `c6_thm` at a concrete input. -/
theorem c6_witness :
    process_annot [] ⟨"p", .variable_v [some 1, none], .class_v 9⟩ = [] ∧
    (make_method 0 "f" [⟨"p", .variable_v [some 1, none], .class_v 9⟩] []
      .none_v none none none .staticmethod).fn.annots = [] ∧
    (make_method 0 "f" [⟨"p", .variable_v [some 1, none], .class_v 9⟩] []
      .none_v none none none .staticmethod).diags = [] :=
  c6_thm [] "p" (.class_v 9) [some 1, none] (by decide)

/-! ### Claim C7 -/

/-- Claim C7: `Param.unsolvable` replaces an absent (Python-falsy)
`type_constraint` with the engine's shared unknown-type value and an absent
default with the unknown-value binding anchored to the given program point,
leaves truthy fields unchanged, and yields the descriptor itself (same name;
the Python method mutates `self` and returns it, embedded as returning the
updated record). -/
theorem c7_thm (p : Param) (node : Nat) :
    (truthy p.typ = false → (Param.unsolvable p node).typ = .unsolvable_v) ∧
    (truthy p.typ = true → (Param.unsolvable p node).typ = p.typ) ∧
    (truthy p.default = false →
      (Param.unsolvable p node).default = .unknown_at node) ∧
    (truthy p.default = true →
      (Param.unsolvable p node).default = p.default) ∧
    (Param.unsolvable p node).name = p.name := by
  refine ⟨fun h => ?_, fun h => ?_, fun h => ?_, fun h => ?_, rfl⟩ <;>
    simp [Param.unsolvable, h]

/-- Witness for `c7_thm` at concrete inputs. -/
theorem c7_witness :
    (Param.unsolvable ⟨"x", .none_v, .class_v 3⟩ 2).typ = .unsolvable_v ∧
    (Param.unsolvable ⟨"x", .none_v, .class_v 3⟩ 2).default = .class_v 3 ∧
    (Param.unsolvable ⟨"y", .class_v 1, .none_v⟩ 5).typ = .class_v 1 ∧
    (Param.unsolvable ⟨"y", .class_v 1, .none_v⟩ 5).default = .unknown_at 5 ∧
    (Param.unsolvable ⟨"x", .none_v, .class_v 3⟩ 2).name = "x" :=
  ⟨(c7_thm ⟨"x", .none_v, .class_v 3⟩ 2).1 rfl,
   (c7_thm ⟨"x", .none_v, .class_v 3⟩ 2).2.2.2.1 rfl,
   (c7_thm ⟨"y", .class_v 1, .none_v⟩ 5).2.1 rfl,
   (c7_thm ⟨"y", .class_v 1, .none_v⟩ 5).2.2.1 rfl,
   (c7_thm ⟨"x", .none_v, .class_v 3⟩ 2).2.2.2.2⟩

/-! ### Claim C10 -/

/-- Claim C10: a falsy but non-`None` `type_constraint` or `default` is
accepted by the constructor without the recognized-kind check firing, and is
thereafter treated exactly like an absent field: annotation resolution adds
no entry, the defaults comprehension adds no entry, and `unsolvable`
finalization overwrites the falsy field with the unknown sentinel. -/
theorem c10_thm (nm : String) (t d : PyVal) (ht : truthy t = false)
    (_htn : t ≠ .none_v) (hd : truthy d = false) (_hdn : d ≠ .none_v) :
    Param.make nm t d = .ok ⟨nm, t, d⟩ ∧
    (∀ anns : Dict, process_annot anns ⟨nm, t, d⟩ = anns) ∧
    (∀ dd : Dict, addDefault dd ⟨nm, t, d⟩ = dd) ∧
    (∀ node : Nat,
      Param.unsolvable ⟨nm, t, d⟩ node =
        ⟨nm, .unsolvable_v, .unknown_at node⟩) := by
  refine ⟨?_, fun anns => ?_, fun dd => ?_, fun node => ?_⟩
  · simp [Param.make, ht]
  · exact process_annot_of_not_truthy _ _ ht
  · simp [addDefault, hd]
  · simp [Param.unsolvable, ht, hd]

/-- Witness for `c10_thm` at a concrete falsy non-`None` input. -/
theorem c10_witness :
    Param.make "a" (.int_v 0) (.str_v "") = .ok ⟨"a", .int_v 0, .str_v ""⟩ ∧
    process_annot [] ⟨"a", .int_v 0, .str_v ""⟩ = [] ∧
    addDefault [] ⟨"a", .int_v 0, .str_v ""⟩ = [] ∧
    Param.unsolvable ⟨"a", .int_v 0, .str_v ""⟩ 7 =
      ⟨"a", .unsolvable_v, .unknown_at 7⟩ := by
  obtain ⟨h1, h2, h3, h4⟩ :=
    c10_thm "a" (.int_v 0) (.str_v "") (by decide)
      (fun h => PyVal.noConfusion h) (by decide) (fun h => PyVal.noConfusion h)
  exact ⟨h1, h2 [], h3 [], h4 7⟩

/-! ### Claim C3 -/

/-- Claim C3: for `class_method` / `static_method` kinds, `make_method`
returns the corresponding decorator (looked up in the built-in registry)
applied at the same program point to the bound descriptor handle — not the
raw handle; for `instance_method` / `property`, it returns the raw bound
handle unchanged. -/
theorem c3_thm (node : Nat) (nm : String) (params0 kwonly0 : List Param)
    (rt : PyVal) (sp va kw : Option Param) :
    ((make_method node nm params0 kwonly0 rt sp va kw .classmethod).retHandle
      = .decorated "classmethod"
          (.raw (make_method node nm params0 kwonly0 rt sp va kw
            .classmethod).fn node) node) ∧
    ((make_method node nm params0 kwonly0 rt sp va kw .staticmethod).retHandle
      = .decorated "staticmethod"
          (.raw (make_method node nm params0 kwonly0 rt sp va kw
            .staticmethod).fn node) node) ∧
    ((make_method node nm params0 kwonly0 rt sp va kw .method).retHandle
      = .raw (make_method node nm params0 kwonly0 rt sp va kw .method).fn
          node) ∧
    ((make_method node nm params0 kwonly0 rt sp va kw .property).retHandle
      = .raw (make_method node nm params0 kwonly0 rt sp va kw .property).fn
          node) ∧
    ((make_method node nm params0 kwonly0 rt sp va kw .classmethod).retHandle
      ≠ .raw (make_method node nm params0 kwonly0 rt sp va kw .classmethod).fn
          node) ∧
    ((make_method node nm params0 kwonly0 rt sp va kw .staticmethod).retHandle
      ≠ .raw (make_method node nm params0 kwonly0 rt sp va kw .staticmethod).fn
          node) :=
  ⟨rfl, rfl, rfl, rfl, fun h => Handle.noConfusion h,
   fun h => Handle.noConfusion h⟩

/-- Witness for `c3_thm` at a concrete input. -/
theorem c3_witness :
    (make_method 0 "f" [] [] .none_v none none none .classmethod).retHandle
      = .decorated "classmethod"
          (.raw (make_method 0 "f" [] [] .none_v none none none
            .classmethod).fn 0) 0 ∧
    (make_method 0 "f" [] [] .none_v none none none .method).retHandle
      = .raw (make_method 0 "f" [] [] .none_v none none none .method).fn 0 :=
  ⟨(c3_thm 0 "f" [] [] .none_v none none none).1,
   (c3_thm 0 "f" [] [] .none_v none none none).2.2.1⟩

/-! ### Claim C8 -/

/-- Claim C8 is false as stated: `make_method` performs no uniqueness check,
so a caller-supplied positional parameter named `self` collides with the
injected receiver and the assembled signature carries the duplicate name
`self` twice. -/
theorem c8_counterexample :
    (make_method 0 "f" [⟨"self", .none_v, .none_v⟩] [] .none_v none none none
      .method).fn.param_names = ["self", "self"] ∧
    ¬ List.Nodup
        ((make_method 0 "f" [⟨"self", .none_v, .none_v⟩] [] .none_v none none
            none .method).fn.param_names ++
          (make_method 0 "f" [⟨"self", .none_v, .none_v⟩] [] .none_v none none
            none .method).fn.kwonly_params ++
          ((make_method 0 "f" [⟨"self", .none_v, .none_v⟩] [] .none_v none
            none none .method).fn.varargs_name).toList ++
          ((make_method 0 "f" [⟨"self", .none_v, .none_v⟩] [] .none_v none
            none none .method).fn.kwargs_name).toList) := by
  refine ⟨rfl, ?_⟩
  show ¬ List.Nodup (["self", "self"] ++ [] ++ [] ++ [])
  decide

/-- Claim C8 (amended): `make_method` only concatenates the injected receiver
with the caller-supplied names, so the assembled signature's parameter names
are unique across the positional, keyword-only, receiver, varargs and kwargs
sets whenever the caller-supplied names together with the injected receiver
name are pairwise distinct; uniqueness is a caller obligation, not enforced
by the builder. -/
theorem c8_amended (node : Nat) (nm : String) (params0 kwonly0 : List Param)
    (rt : PyVal) (sp va kw : Option Param) (kind : MethodKind)
    (h : (((recvParams kind sp ++ params0 ++ kwonly0).map Param.name) ++
        (va.map Param.name).toList ++ (kw.map Param.name).toList).Nodup) :
    ((make_method node nm params0 kwonly0 rt sp va kw kind).fn.param_names ++
      (make_method node nm params0 kwonly0 rt sp va kw kind).fn.kwonly_params
      ++ ((make_method node nm params0 kwonly0 rt sp va kw
            kind).fn.varargs_name).toList ++
      ((make_method node nm params0 kwonly0 rt sp va kw
          kind).fn.kwargs_name).toList).Nodup := by
  have heq :
      (make_method node nm params0 kwonly0 rt sp va kw kind).fn.param_names ++
        (make_method node nm params0 kwonly0 rt sp va kw
          kind).fn.kwonly_params ++
        ((make_method node nm params0 kwonly0 rt sp va kw
            kind).fn.varargs_name).toList ++
        ((make_method node nm params0 kwonly0 rt sp va kw
            kind).fn.kwargs_name).toList =
      (((recvParams kind sp ++ params0 ++ kwonly0).map Param.name) ++
        (va.map Param.name).toList ++ (kw.map Param.name).toList) := by
    simp [make_method, List.map_append, List.append_assoc]
  rw [heq]
  exact h

/-- Witness for `c8_amended` at a concrete input. -/
theorem c8_amended_witness :
    ((make_method 0 "f" [⟨"a", .none_v, .none_v⟩] [⟨"b", .none_v, .none_v⟩]
        .none_v none none none .method).fn.param_names ++
      (make_method 0 "f" [⟨"a", .none_v, .none_v⟩] [⟨"b", .none_v, .none_v⟩]
        .none_v none none none .method).fn.kwonly_params ++
      ((make_method 0 "f" [⟨"a", .none_v, .none_v⟩] [⟨"b", .none_v, .none_v⟩]
        .none_v none none none .method).fn.varargs_name).toList ++
      ((make_method 0 "f" [⟨"a", .none_v, .none_v⟩] [⟨"b", .none_v, .none_v⟩]
        .none_v none none none .method).fn.kwargs_name).toList).Nodup :=
  c8_amended 0 "f" [⟨"a", .none_v, .none_v⟩] [⟨"b", .none_v, .none_v⟩]
    .none_v none none none .method (by decide)

/-! ### Claim C2 -/

/-- Claim C2: for `instance_method` / `property` kinds the first positional
parameter of the built signature is the receiver — `receiver_param` when one
is supplied, else an injected `self` that stays untyped (no annotations
entry) and defaultless (no defaults entry); for `class_method` it is named
`cls` regardless of any supplied receiver; for `static_method` no receiver is
injected. -/
theorem c2_thm (node : Nat) (nm : String) (params0 kwonly0 : List Param)
    (rt : PyVal) (va kw : Option Param) :
    (∀ sp : Param, (make_method node nm params0 kwonly0 rt (some sp) va kw
      .method).fn.param_names = sp.name :: params0.map Param.name) ∧
    (∀ sp : Param, (make_method node nm params0 kwonly0 rt (some sp) va kw
      .property).fn.param_names = sp.name :: params0.map Param.name) ∧
    ((make_method node nm params0 kwonly0 rt none va kw
      .method).fn.param_names = "self" :: params0.map Param.name) ∧
    ((make_method node nm params0 kwonly0 rt none va kw
      .property).fn.param_names = "self" :: params0.map Param.name) ∧
    (∀ sp : Option Param, (make_method node nm params0 kwonly0 rt sp va kw
      .classmethod).fn.param_names = "cls" :: params0.map Param.name) ∧
    (∀ sp : Option Param, (make_method node nm params0 kwonly0 rt sp va kw
      .staticmethod).fn.param_names = params0.map Param.name) ∧
    ((∀ p ∈ params0, p.name ≠ "self") → (∀ p ∈ kwonly0, p.name ≠ "self") →
      (∀ vp : Param, va = some vp → vp.name ≠ "self") →
      (∀ kp : Param, kw = some kp → kp.name ≠ "self") →
      dictHas (make_method node nm params0 kwonly0 rt none va kw
        .method).fn.annots "self" = false ∧
      dictHas (make_method node nm params0 kwonly0 rt none va kw
        .method).fn.defaults "self" = false) := by
  refine ⟨fun sp => ?_, fun sp => ?_, ?_, ?_, fun sp => ?_, fun sp => ?_,
    fun h1 h2 h3 h4 => ⟨?_, ?_⟩⟩
  · simp [make_method, recvParams]
  · simp [make_method, recvParams]
  · simp [make_method, recvParams]
  · simp [make_method, recvParams]
  · simp [make_method, recvParams]
  · simp [make_method, recvParams]
  · -- the injected self contributes no annotations entry
    simp only [make_method]
    apply foldl_process_annot_not_has
    · intro p hp
      rcases List.mem_append.mp hp with hsp | hk
      · rcases List.mem_append.mp hsp with hs | hpp
        · -- special params: return / varargs / kwargs
          rcases List.mem_filterMap.mp hs with ⟨o, ho, hoo⟩
          simp only [List.mem_cons, List.mem_singleton,
            List.not_mem_nil, or_false] at ho
          rcases ho with ho | ho | ho
          · subst ho
            by_cases hrt : truthy rt = true
            · rw [if_pos hrt] at hoo
              cases hoo
              exact Or.inl (show ("return" : String) ≠ "self" by decide)
            · rw [if_neg hrt] at hoo
              cases hoo
          · subst ho
            exact Or.inl (h3 p hoo)
          · subst ho
            exact Or.inl (h4 p hoo)
        · -- receiver and positional params
          rcases List.mem_append.mp hpp with hr | hq
          · rcases List.mem_singleton.mp hr with rfl
            exact Or.inr rfl
          · exact Or.inl (h1 p hq)
      · exact Or.inl (h2 p hk)
    · rfl
  · -- the injected self contributes no defaults entry
    simp only [make_method]
    rw [foldl_addDefault_any]
    simp only [dictHas, Bool.false_or]
    rw [List.any_eq_false]
    intro p hp
    rcases List.mem_append.mp hp with hpp | hk
    · rcases List.mem_append.mp hpp with hr | hq
      · rcases List.mem_singleton.mp hr with rfl
        simp [truthy]
      · simp [h1 p hq]
    · simp [h2 p hk]

/-- Witness for `c2_thm` at concrete inputs. -/
theorem c2_witness :
    (make_method 0 "m" [⟨"a", .none_v, .none_v⟩] [] .none_v none none none
      .method).fn.param_names = ["self", "a"] ∧
    (make_method 0 "m" [⟨"a", .none_v, .none_v⟩] [] .none_v
      (some ⟨"obj", .none_v, .none_v⟩) none none
      .classmethod).fn.param_names = ["cls", "a"] ∧
    (make_method 0 "m" [⟨"a", .none_v, .none_v⟩] [] .none_v
      (some ⟨"obj", .none_v, .none_v⟩) none none
      .staticmethod).fn.param_names = ["a"] ∧
    dictHas (make_method 0 "m" [⟨"a", .none_v, .none_v⟩] [] .none_v none none
      none .method).fn.annots "self" = false ∧
    dictHas (make_method 0 "m" [⟨"a", .none_v, .none_v⟩] [] .none_v none none
      none .method).fn.defaults "self" = false := by
  obtain h := c2_thm 0 "m" [⟨"a", .none_v, .none_v⟩] [] .none_v none none
  have hs : ∀ p ∈ [(⟨"a", .none_v, .none_v⟩ : Param)], p.name ≠ "self" := by
    intro p hp
    rcases List.mem_singleton.mp hp with rfl
    decide
  have hlast := h.2.2.2.2.2.2 hs (fun p hp => absurd hp (List.not_mem_nil p))
    (fun vp hv => Option.noConfusion hv) (fun kp hk => Option.noConfusion hk)
  exact ⟨h.2.2.1, h.2.2.2.2.1 (some ⟨"obj", .none_v, .none_v⟩),
    h.2.2.2.2.2.1 (some ⟨"obj", .none_v, .none_v⟩), hlast.1, hlast.2⟩

/-! ### Claim C9 -/

/-- Claim C9: on a positional name list whose prefix before `ni` consists of
defaultless names followed by at least one defaulted name (so `ni` is the
leftmost defaultless parameter that follows a defaulted one), the validation
reports exactly `ni`. -/
theorem c9_thm (dflt : Dict) (A B : List String) (ni : String)
    (l₂ : List String) (hA : ∀ a ∈ A, dictHas dflt a = false)
    (hB : ∀ b ∈ B, dictHas dflt b = true) (hBne : B ≠ [])
    (hni : dictHas dflt ni = false) :
    check_defaults (A ++ B ++ ni :: l₂) dflt = some ni := by
  rw [check_defaults, List.append_assoc, cdGo_append_false dflt A _ hA]
  cases B with
  | nil => exact absurd rfl hBne
  | cons b B' =>
      have hb := hB b (List.mem_cons_self b B')
      simp only [List.cons_append, cdGo, hb, if_true]
      show cdGo dflt true (B' ++ ni :: l₂) = some ni
      rw [cdGo_append_true dflt B' _
        (fun x hx => hB x (List.mem_cons_of_mem _ hx))]
      simp [cdGo, hni]

/-- Witness for `c9_thm` at a concrete input: among `a` (defaultless), `b`
(defaulted), `c` then `d` (defaultless), the leftmost offender `c` is
reported. -/
theorem c9_witness :
    check_defaults (["a"] ++ ["b"] ++ "c" :: ["d"]) [("b", .int_v 1)] =
      some "c" := by
  refine c9_thm [("b", .int_v 1)] ["a"] ["b"] "c" ["d"] ?_ ?_ ?_ ?_
  · intro a ha
    rcases List.mem_singleton.mp ha with rfl
    decide
  · intro b hb
    rcases List.mem_singleton.mp hb with rfl
    decide
  · exact fun h => List.noConfusion h
  · decide

/-! ### Claim C4 -/

/-- Claim C4: when the caller-supplied positional parameters (receiver
excluded) place a defaultless parameter after a defaulted one (parameter
names being pairwise distinct, the stated signature invariant), `make_method`
reports exactly one diagnostic naming the method and an offending parameter
to the error log, and construction still completes: the descriptor is built,
bound at the program point, and returned (raw or decorator-wrapped according
to the kind) rather than the call aborting. -/
theorem c4_thm (node : Nat) (nm : String) (rt : PyVal) (sp va kw : Option
    Param) (kind : MethodKind) (p₁ : List Param) (pj : Param) (p₂ : List
    Param) (pi : Param) (p₃ : List Param) (kwonly0 : List Param)
    (hj : truthy pj.default = true) (hi : truthy pi.default = false)
    (hnd : ((recvParams kind sp ++ (p₁ ++ pj :: p₂ ++ pi :: p₃) ++
      kwonly0).map Param.name).Nodup) :
    (∃ bp, (make_method node nm (p₁ ++ pj :: p₂ ++ pi :: p₃) kwonly0 rt sp va
        kw kind).diags =
      ["In method " ++ nm ++ ", non-default argument " ++ bp ++
        " follows default argument"]) ∧
    ((make_method node nm (p₁ ++ pj :: p₂ ++ pi :: p₃) kwonly0 rt sp va kw
        kind).retHandle =
      .raw (make_method node nm (p₁ ++ pj :: p₂ ++ pi :: p₃) kwonly0 rt sp va
        kw kind).fn node ∨
      ∃ dec, (make_method node nm (p₁ ++ pj :: p₂ ++ pi :: p₃) kwonly0 rt sp
          va kw kind).retHandle =
        .decorated dec (.raw (make_method node nm (p₁ ++ pj :: p₂ ++ pi ::
          p₃) kwonly0 rt sp va kw kind).fn node) node) := by
  set params0 : List Param := p₁ ++ pj :: p₂ ++ pi :: p₃ with hparams0
  set L : List Param := recvParams kind sp ++ params0 ++ kwonly0 with hL
  have hmemj : pj ∈ L := by
    rw [hL, hparams0]
    simp [List.mem_append]
  have hmemi : pi ∈ L := by
    rw [hL, hparams0]
    simp [List.mem_append]
  -- the assembled defaults dict agrees with each parameter's own default
  have hdict : ∀ n : String,
      dictHas (((recvParams kind sp ++ params0) ++ kwonly0).foldl addDefault
        []) n =
      L.any (fun p => p.name == n && truthy p.default) := by
    intro n
    rw [foldl_addDefault_any]
    simp only [dictHas, Bool.false_or]
  have hhasj :
      dictHas (((recvParams kind sp ++ params0) ++ kwonly0).foldl addDefault
        []) pj.name = true := by
    rw [hdict]
    rw [List.any_eq_true]
    exact ⟨pj, hmemj, by simp [hj]⟩
  have hhasi :
      dictHas (((recvParams kind sp ++ params0) ++ kwonly0).foldl addDefault
        []) pi.name = false := by
    rw [hdict]
    rw [List.any_eq_false]
    intro x hx
    by_cases hxn : x.name = pi.name
    · have hx_eq : x = pi := List.inj_on_of_nodup_map hnd hx hmemi hxn
      subst hx_eq
      simp [hi]
    · simp [hxn]
  -- the positional-name scan finds an offender
  have hsome :
      (check_defaults ((recvParams kind sp ++ params0).map Param.name)
        (((recvParams kind sp ++ params0) ++ kwonly0).foldl addDefault
          [])).isSome = true := by
    rw [check_defaults]
    have hshape : (recvParams kind sp ++ params0).map Param.name =
        ((recvParams kind sp ++ p₁).map Param.name ++ pj.name ::
          p₂.map Param.name) ++ pi.name :: p₃.map Param.name := by
      rw [hparams0]
      simp [List.map_append, List.append_assoc]
    rw [hshape]
    exact cdGo_isSome _ _ _ _ _ _ hhasj hhasi false
  rcases Option.isSome_iff_exists.mp hsome with ⟨bp, hbp⟩
  constructor
  · refine ⟨bp, ?_⟩
    simp only [make_method, hparams0]
    rw [hbp]
  · cases kind
    · exact Or.inl rfl
    · exact Or.inr ⟨"classmethod", rfl⟩
    · exact Or.inr ⟨"staticmethod", rfl⟩
    · exact Or.inl rfl

/-- Witness for `c4_thm` at a concrete input: positional `a` has a default,
`b` does not; the diagnostic is reported and the (static-method) descriptor
is still produced and wrapped. -/
theorem c4_witness :
    (∃ bp, (make_method 0 "f" ([] ++ ⟨"a", .none_v, .int_v 1⟩ :: [] ++
        ⟨"b", .none_v, .none_v⟩ :: []) [] .none_v none none none
        .staticmethod).diags =
      ["In method " ++ "f" ++ ", non-default argument " ++ bp ++
        " follows default argument"]) ∧
    ((make_method 0 "f" ([] ++ ⟨"a", .none_v, .int_v 1⟩ :: [] ++
        ⟨"b", .none_v, .none_v⟩ :: []) [] .none_v none none none
        .staticmethod).retHandle =
      .raw (make_method 0 "f" ([] ++ ⟨"a", .none_v, .int_v 1⟩ :: [] ++
        ⟨"b", .none_v, .none_v⟩ :: []) [] .none_v none none none
        .staticmethod).fn 0 ∨
      ∃ dec, (make_method 0 "f" ([] ++ ⟨"a", .none_v, .int_v 1⟩ :: [] ++
          ⟨"b", .none_v, .none_v⟩ :: []) [] .none_v none none none
          .staticmethod).retHandle =
        .decorated dec (.raw (make_method 0 "f" ([] ++ ⟨"a", .none_v,
          .int_v 1⟩ :: [] ++ ⟨"b", .none_v, .none_v⟩ :: []) [] .none_v none
          none none .staticmethod).fn 0) 0) := by
  refine c4_thm 0 "f" .none_v none none none .staticmethod []
    ⟨"a", .none_v, .int_v 1⟩ [] ⟨"b", .none_v, .none_v⟩ [] []
    (by decide) (by decide) ?_
  simp [recvParams]

end OverlayUtils
